import Mathlib

/-!
Shallow embedding of the tiered-cache engine of the Brickbase backend:
the CacheService (ephemeral Redis tier), the TypeORM-backed durable tier
(cached_properties, user_property_balances, cached_listings tables), the
PropertiesService and MarketplaceService read/population/invalidation
paths, and the BlockchainService dynamic token-handle discovery.

Conventions of the embedding:
- Addresses and formatted quantities are `String`s, exactly as the DTOs
  store them; bigint quantities read from the ledger are `Nat` and are
  rendered with `toString` where the source calls `.toString()`.
- A ledger or store call that can throw is modelled as an `Option`
  (`none` = the call threw / rejected); calls whose failures the source
  catches and logs are folded into total functions accordingly.
- Redis keys are structured (`RKey`): the source builds them as
  prefix-disjoint strings (`property:`, `property:byToken:`,
  `properties:all`, `user:properties:`, `listing:`, `listings:all`),
  which the inductive reproduces injectively.
- Metadata documents are opaque `String`s; the empty document the source
  returns on a failed or non-IPFS fetch is modelled as `""`.
- `Promise.all` over independent per-entity work is linearised into a
  left-to-right fold; a fire-and-forget background call is linearised to
  run before the enclosing function returns.
- The ghost field `St.log` records the order of the two durable-table
  clears during rebuild; no other operation touches it.
- The field `St.coldFetches` counts entries into the
  `...FromBlockchain` cold-fetch functions.
-/

/-- The zero address constant (ethers `ZeroAddress`). -/
def zeroAddress : String := "0x0000000000000000000000000000000000000000"

/-- JavaScript `toLowerCase()` as used on hex addresses: per-character
lowercasing. -/
def lower (s : String) : String := ⟨s.data.map Char.toLower⟩

/-- `RegisteredProperty` struct returned by the PropertyRegistry contract. -/
structure RegisteredProperty where
  propertyNFT : String
  propertyToken : String
  isActive : Bool
  registrationDate : Nat
deriving DecidableEq

/-- The formatted property view (`PropertyDto`) served to callers and cached. -/
structure PropertyDto where
  id : String
  tokenId : Nat
  tokenAddress : String
  metadata : String
  totalSupply : String
deriving DecidableEq

/-- A row of the durable `cached_properties` table. -/
structure CachedProperty where
  id : String
  tokenId : Nat
  tokenAddress : String
  metadata : String
  totalSupply : String
  isActive : Bool
deriving DecidableEq

/-- A row of the durable `user_property_balances` table
(natural key `(userAddress, propertyTokenAddress)`). -/
structure UserPropertyBalance where
  userAddress : String
  propertyTokenAddress : String
  propertyNftAddress : String
  tokenId : Nat
  balance : String
deriving DecidableEq

/-- A user-scoped property entry: a `PropertyDto` together with the
holder's balance, as assembled by `findPropertiesOwnedByUser`. -/
structure OwnedProperty where
  id : String
  tokenId : Nat
  tokenAddress : String
  metadata : String
  totalSupply : String
  balance : String
deriving DecidableEq

/-- Raw positional tuple returned by `PropertyMarketplace.listings`:
0 seller, 1 propertyToken, 2 tokenAmount, 3 pricePerToken, 4 isActive. -/
structure RawListing where
  seller : String
  propertyToken : String
  tokenAmount : Nat
  pricePerToken : Nat
  isActive : Bool
deriving DecidableEq

/-- The formatted listing view (`ListingDto`). -/
structure ListingDto where
  listingId : Nat
  seller : String
  nftAddress : String
  tokenId : String
  tokenAddress : String
  pricePerToken : String
  amount : String
  active : Bool
  currency : String
deriving DecidableEq

/-- A row of the durable `cached_listings` table (primary key `listingId`). -/
structure CachedListing where
  listingId : Nat
  seller : String
  nftAddress : String
  tokenId : String
  tokenAddress : String
  pricePerToken : String
  amount : String
  active : Bool
  currency : String
  expiresAt : Nat
deriving DecidableEq

/-- Result of the registry's direct `getPropertyByToken` lookup. -/
structure DirectInfo where
  propertyNFT : String
  tokenId : Nat
deriving DecidableEq

/-- The `(nftAddress, tokenId)` pair resolved from a token address. -/
structure NftDetails where
  nftAddress : String
  tokenId : Nat
deriving DecidableEq

/-- Structured Redis keys, mirroring the prefix-disjoint string keys
built by `CacheService` (`getPropertyKey`, the `CACHE_KEYS` constants). -/
inductive RKey where
  | prop (nftAddress : String) (tokenId : Option Nat)
  | propsAll
  | propByToken (tokenAddress : String)
  | userProps (userAddress : String)
  | listing (listingId : Nat)
  | listingsAll
deriving DecidableEq

/-- Values stored in the ephemeral tier. -/
inductive RVal where
  | prop (p : PropertyDto)
  | propList (l : List PropertyDto)
  | userPropList (l : List OwnedProperty)
  | listing (l : ListingDto)
  | listingList (l : List ListingDto)
deriving DecidableEq

/-- Ghost events recording the order of the durable-table clears. -/
inductive LogEv where
  | clearBalances
  | clearProps
deriving DecidableEq

/-- The combined cache state: ephemeral Redis tier, the three durable
tables, the cold-fetch counter and the ghost clear log. -/
structure St where
  redis : List (RKey × RVal)
  dbProps : List CachedProperty
  dbBalances : List UserPropertyBalance
  dbListings : List CachedListing
  coldFetches : Nat
  log : List LogEv
deriving DecidableEq

/-- The empty cache state. -/
def emptySt : St := ⟨[], [], [], [], 0, []⟩

/-- Environment: the ledger contracts and external collaborators as seen
through the `BlockchainService` boundary. `Option` results model calls
that may throw (`none` = the call rejected). -/
structure Chain where
  registryAvailable : Bool
  nftAvailable : Bool
  marketplaceAvailable : Bool
  registry : List RegisteredProperty
  getAllOk : Bool
  propertyIndex : String → Option Nat
  tokenURIat : Nat → Option String
  ipfsDoc : String → String
  hasTokenContract : String → Bool
  totalSupplyOf : String → Option String
  balanceOf : String → String → Option Nat
  listingsAt : Nat → Option RawListing
  directByToken : String → Option (Option DirectInfo)
  now : Nat

/-- Read the ephemeral tier: first binding of the key wins. -/
def rget : List (RKey × RVal) → RKey → Option RVal
  | [], _ => none
  | (k', v) :: rest, k => if k = k' then some v else rget rest k

/-- Write the ephemeral tier (`cacheManager.set`): the new binding
shadows any previous one. -/
def rset (redis : List (RKey × RVal)) (k : RKey) (v : RVal) : List (RKey × RVal) :=
  (k, v) :: redis

/-- Delete a key from the ephemeral tier (`cacheManager.del`). -/
def rdel (redis : List (RKey × RVal)) (k : RKey) : List (RKey × RVal) :=
  redis.filter (fun p => decide (p.1 ≠ k))

/-- TypeORM `upsert` on `cached_properties`, conflict target
`['id', 'tokenId']`: replace the (unique) matching row, else append. -/
def upsertProp (row : CachedProperty) : List CachedProperty → List CachedProperty
  | [] => [row]
  | r :: rest =>
    if r.id = row.id ∧ r.tokenId = row.tokenId then row :: rest
    else r :: upsertProp row rest

/-- Look up a `cached_properties` row by its composite key. -/
def lookupProp : List CachedProperty → String → Nat → Option CachedProperty
  | [], _, _ => none
  | r :: rest, id, tid =>
    if r.id = id ∧ r.tokenId = tid then some r else lookupProp rest id tid

/-- TypeORM `upsert` on `user_property_balances`, conflict target
`['userAddress', 'propertyTokenAddress']`. -/
def upsertBal (row : UserPropertyBalance) :
    List UserPropertyBalance → List UserPropertyBalance
  | [] => [row]
  | r :: rest =>
    if r.userAddress = row.userAddress ∧
        r.propertyTokenAddress = row.propertyTokenAddress then row :: rest
    else r :: upsertBal row rest

/-- TypeORM `save` on `cached_listings` (primary key `listingId`):
insert-or-update by primary key. -/
def upsertListing (row : CachedListing) : List CachedListing → List CachedListing
  | [] => [row]
  | r :: rest =>
    if r.listingId = row.listingId then row :: rest
    else r :: upsertListing row rest

/-- `cachedPropertyRepository.delete({ id: nftAddress })`. -/
def deletePropsById (id : String) (db : List CachedProperty) : List CachedProperty :=
  db.filter (fun r => decide (r.id ≠ id))

/-- `userPropertyBalanceRepository.delete({ propertyNftAddress })`. -/
def deleteBalancesByNft (nft : String) (db : List UserPropertyBalance) :
    List UserPropertyBalance :=
  db.filter (fun b => decide (b.propertyNftAddress ≠ nft))

/-- `cachedListingRepository.findOne({ listingId, active: true,
expiresAt: MoreThan(new Date()) })`. -/
def dbFindListing : List CachedListing → Nat → Nat → Option CachedListing
  | [], _, _ => none
  | cl :: rest, lid, now =>
    if cl.listingId = lid ∧ cl.active = true ∧ now < cl.expiresAt then some cl
    else dbFindListing rest lid now

/-- Count one entry into a cold-fetch (`...FromBlockchain`) function. -/
def bumpCold (st : St) : St := { st with coldFetches := st.coldFetches + 1 }

/-- `CacheService.getAllProperties`: the get is awaited, so the
`|| []` fallback applies to the resolved value — a miss yields `[]`. -/
def cacheGetAllProperties (st : St) : List PropertyDto :=
  match rget st.redis RKey.propsAll with
  | some (RVal.propList l) => l
  | _ => []

/-- `CacheService.getUserProperties`: the source returns
`this.get(key) || []` WITHOUT awaiting, so `|| []` is applied to the
(always truthy) Promise and is dead code; the resolved value on a miss
is the raw null/undefined, modelled `none`. -/
def cacheGetUserProperties (st : St) (user : String) : Option (List OwnedProperty) :=
  match rget st.redis (RKey.userProps user) with
  | some (RVal.userPropList l) => some l
  | _ => none

/-- `CacheService.getAllListings`: same un-awaited `this.get(key) || []`
shape as `getUserProperties`; a miss resolves to null/undefined. -/
def cacheGetAllListings (st : St) : Option (List ListingDto) :=
  match rget st.redis RKey.listingsAll with
  | some (RVal.listingList l) => some l
  | _ => none

/-- `CacheService.reset`: deletes only the two aggregate list keys
(`properties:all` and `listings:all`). -/
def cacheReset (st : St) : St :=
  { st with redis := rdel (rdel st.redis RKey.propsAll) RKey.listingsAll }

/-- The `uri.startsWith('ipfs://')` test of `fetchMetadata`. -/
def isIpfsUri (s : String) : Bool := "ipfs://".data.isPrefixOf s.data

/-- `PropertiesService.fetchMetadata`: non-IPFS URI or gateway failure
yields the empty document; otherwise the gateway's document. -/
def fetchMetadata (chain : Chain) (uri : String) : String :=
  if isIpfsUri uri then chain.ipfsDoc uri else ""

/-- `PropertiesService.saveToCachedProperties`: builds the durable row
from the DTO with `isActive := true` and upserts it by
`['id', 'tokenId']`. -/
def saveToCachedProperties (dto : PropertyDto) (st : St) : St :=
  let row : CachedProperty :=
    ⟨dto.id, dto.tokenId, dto.tokenAddress, dto.metadata, dto.totalSupply, true⟩
  { st with dbProps := upsertProp row st.dbProps }

/-- The success tail of `PropertiesService.formatProperty`: build the
DTO, write the durable row (`saveToCachedProperties`) and the two
ephemeral per-entity keys (`setProperty`, `setPropertyByToken`), and
return the DTO. -/
def formatPropertyWrite (propertyData : RegisteredProperty) (tokenId : Nat)
    (metadata supply : String) (st : St) : Option PropertyDto × St :=
  let dto : PropertyDto :=
    ⟨propertyData.propertyNFT, tokenId, propertyData.propertyToken, metadata, supply⟩
  let st1 := saveToCachedProperties dto st
  let r2 := rset st1.redis (RKey.prop dto.id (some dto.tokenId)) (RVal.prop dto)
  let st2 := { st1 with redis := r2 }
  let r3 := rset st2.redis (RKey.propByToken dto.tokenAddress) (RVal.prop dto)
  let st3 := { st2 with redis := r3 }
  (some dto, st3)

/-- `PropertiesService.formatProperty`: assembles the DTO from the
registry struct, the token URI, the metadata document and the token's
total supply; on success writes the durable row and the two ephemeral
per-entity keys, on any failure returns `none` without writing. -/
def formatProperty (chain : Chain) (propertyData : RegisteredProperty)
    (tokenId : Nat) (st : St) : Option PropertyDto × St :=
  if chain.nftAvailable = false then (none, st)
  else if propertyData.propertyToken = "" ∨ propertyData.propertyToken = zeroAddress
    then (none, st)
  else if chain.hasTokenContract propertyData.propertyToken = false then (none, st)
  else
    match chain.tokenURIat tokenId with
    | none => (none, st)
    | some uri =>
      match chain.totalSupplyOf propertyData.propertyToken with
      | none => (none, st)
      | some supply =>
        formatPropertyWrite propertyData tokenId (fetchMetadata chain uri) supply st

/-- `PropertiesService.invalidatePropertyCaches`: deletes the durable
rows for the NFT, the per-entity ephemeral keys, the aggregate list key,
and the dependent balance rows. -/
def invalidatePropertyCaches (nft : String) (tokenAddress : String)
    (tokenId : Option Nat) (st : St) : St :=
  { st with
    dbProps := deletePropsById nft st.dbProps,
    redis :=
      rdel (rdel (rdel st.redis (RKey.prop nft tokenId)) RKey.propsAll)
        (RKey.propByToken tokenAddress),
    dbBalances := deleteBalancesByNft nft st.dbBalances }

/-- The per-index tail of the single-property cold fetch: read the
registry struct at the resolved index, reject a mismatching NFT address
(case-insensitive compare), invalidate and return `none` for an
inactive entry, and otherwise format. -/
def fetchPropertyAt (chain : Chain) (nftAddress : String) (rid : Nat)
    (st : St) : Option PropertyDto × St :=
  match chain.registry.get? rid with
  | none => (none, st)
  | some propertyData =>
    if lower propertyData.propertyNFT ≠ lower nftAddress then (none, st)
    else if propertyData.isActive = false then
      (none, invalidatePropertyCaches nftAddress propertyData.propertyToken
        (some rid) st)
    else formatProperty chain propertyData rid st

/-- `PropertiesService.fetchPropertyDetailsFromBlockchain`: the cold
fetch for one property. Resolves the token id (given, or via the
1-based `propertyIndex` mapping, whose value 0 means absent), then runs
the per-index tail. -/
def fetchPropertyDetailsFromBlockchain (chain : Chain) (nftAddress : String)
    (tokenId : Option Nat) (st : St) : Option PropertyDto × St :=
  if chain.registryAvailable = false then (none, bumpCold st)
  else
    match tokenId with
    | some t => fetchPropertyAt chain nftAddress t (bumpCold st)
    | none =>
      match chain.propertyIndex nftAddress with
      | none => (none, bumpCold st)
      | some 0 => (none, bumpCold st)
      | some (n + 1) => fetchPropertyAt chain nftAddress n (bumpCold st)

/-- `PropertiesService.getPropertyDetails`: ephemeral-tier read-through —
on a Redis hit return the cached DTO, otherwise go straight to the cold
fetch (the durable tier is not consulted on this path). -/
def getPropertyDetails (chain : Chain) (nftAddress : String)
    (tokenId : Option Nat) (st : St) : Option PropertyDto × St :=
  match rget st.redis (RKey.prop nftAddress tokenId) with
  | some (RVal.prop p) => (some p, st)
  | _ => fetchPropertyDetailsFromBlockchain chain nftAddress tokenId st

/-- The reverse-lookup fallback loop of
`findNftDetailsByTokenAddressFromBlockchain`: scan the registered list
in order from index `i`, returning at the first entry that is active
and whose token address matches case-insensitively. -/
def findByTokenScan (token : String) : List RegisteredProperty → Nat → Option NftDetails
  | [], _ => none
  | p :: rest, i =>
    if p.isActive = true ∧ lower p.propertyToken = lower token then
      some ⟨p.propertyNFT, i⟩
    else findByTokenScan token rest (i + 1)

/-- `PropertiesService.findNftDetailsByTokenAddressFromBlockchain`:
direct `getPropertyByToken` lookup first (an inactive direct hit returns
`none` outright); a thrown or empty direct lookup falls back to the
full scan (which itself needs `getAllProperties` to succeed). -/
def findNftDetailsByTokenAddressFromBlockchain (chain : Chain) (token : String)
    (st : St) : Option NftDetails × St :=
  let st1 := bumpCold st
  if chain.registryAvailable = false then (none, st1)
  else
    let fb : Option NftDetails × St :=
      if chain.getAllOk then (findByTokenScan token chain.registry 0, st1)
      else (none, st1)
    match chain.directByToken token with
    | some (some info) =>
      if info.propertyNFT = "" ∨ info.propertyNFT = zeroAddress then fb
      else
        match chain.registry.get? info.tokenId with
        | some propData =>
          if propData.isActive then (some ⟨info.propertyNFT, info.tokenId⟩, st1)
          else (none, st1)
        | none => fb
    | _ => fb

/-- `PropertiesService.findNftDetailsByTokenAddress`: ephemeral
by-token read first, then the blockchain lookup; on a blockchain hit
the source fires `getPropertyDetails` without awaiting (linearised to
run before returning here). -/
def findNftDetailsByTokenAddress (chain : Chain) (token : String)
    (st : St) : Option NftDetails × St :=
  match rget st.redis (RKey.propByToken token) with
  | some (RVal.prop p) => (some ⟨p.id, p.tokenId⟩, st)
  | _ =>
    match findNftDetailsByTokenAddressFromBlockchain chain token st with
    | (some d, st1) =>
      (some d, (getPropertyDetails chain d.nftAddress (some d.tokenId) st1).2)
    | (none, st1) => (none, st1)

/-- The enumeration loop of `fetchAllPropertiesFromBlockchain`: walk the
registry with its index as the token id, skip inactive entries, format
the rest, and drop entries whose formatting failed. -/
def formatActiveList (chain : Chain) :
    List RegisteredProperty → Nat → St → List PropertyDto × St
  | [], _, st => ([], st)
  | p :: rest, i, st =>
    if p.isActive = false then formatActiveList chain rest (i + 1) st
    else
      match formatProperty chain p i st with
      | (some dto, st1) =>
        (dto :: (formatActiveList chain rest (i + 1) st1).1,
          (formatActiveList chain rest (i + 1) st1).2)
      | (none, st1) => formatActiveList chain rest (i + 1) st1

/-- `PropertiesService.fetchAllPropertiesFromBlockchain`: the cold-fetch
enumeration over the registry. -/
def fetchAllPropertiesFromBlockchain (chain : Chain) (st : St) :
    List PropertyDto × St :=
  let st1 := bumpCold st
  if chain.registryAvailable = false ∨ chain.nftAvailable = false then ([], st1)
  else if chain.getAllOk = false then ([], st1)
  else formatActiveList chain chain.registry 0 st1

/-- `PropertiesService.findAllProperties`: serve a non-empty ephemeral
list, otherwise enumerate the ledger and (if non-empty) store the list. -/
def findAllProperties (chain : Chain) (st : St) : List PropertyDto × St :=
  let cached := cacheGetAllProperties st
  if 0 < cached.length then (cached, st)
  else
    let (props, st1) := fetchAllPropertiesFromBlockchain chain st
    if 0 < props.length then
      (props, { st1 with redis := rset st1.redis RKey.propsAll (RVal.propList props) })
    else (props, st1)

/-- `PropertiesService.populateInitialPropertyCache`: enumerate and, if
anything was found, store the aggregate list key. -/
def populateInitialPropertyCache (chain : Chain) (st : St) : St :=
  let (props, st1) := fetchAllPropertiesFromBlockchain chain st
  if 0 < props.length then
    { st1 with redis := rset st1.redis RKey.propsAll (RVal.propList props) }
  else st1

/-- `PropertiesService.resetAndRebuildCache`: `CacheService.reset`, then
clear the dependent balance table, then the property table (ghost log
records the order), then repopulate via the enumeration cold fetch. -/
def resetAndRebuildCache (chain : Chain) (st : St) : St :=
  let st1 := cacheReset st
  let st2 := { st1 with dbBalances := [], log := st1.log ++ [LogEv.clearBalances] }
  let st3 := { st2 with dbProps := [], log := st2.log ++ [LogEv.clearProps] }
  populateInitialPropertyCache chain st3

/-- The durable-tier assembly step of `findPropertiesOwnedByUser`: for
each balance row of the user, join the `cached_properties` row by
`(propertyNftAddress, tokenId)` and keep it only if present and active. -/
def userPropsFromDb (st : St) (address : String) : List OwnedProperty :=
  (st.dbBalances.filter (fun b => b.userAddress = address)).filterMap fun b =>
    match lookupProp st.dbProps b.propertyNftAddress b.tokenId with
    | some cp =>
      if cp.isActive then
        some ⟨cp.id, cp.tokenId, cp.tokenAddress, cp.metadata, cp.totalSupply, b.balance⟩
      else none
    | none => none

/-- `userPropertyBalanceRepository.upsert(userBalance, ['userAddress',
'propertyTokenAddress'])`: the balance-row population write. -/
def saveUserBalance (row : UserPropertyBalance) (st : St) : St :=
  { st with dbBalances := upsertBal row st.dbBalances }

/-- The per-property loop of `fetchPropertiesOwnedByUserFromBlockchain`:
check the balance of each property token, and for each positive balance
ensure the durable property row exists (`getPropertyDetails`), upsert
the balance row, and emit the owned entry; failures skip the property. -/
def ownedLoop (chain : Chain) (address : String) :
    List PropertyDto → St → List OwnedProperty × St
  | [], st => ([], st)
  | p :: rest, st =>
    if chain.hasTokenContract p.tokenAddress = false then
      ownedLoop chain address rest st
    else
      match chain.balanceOf p.tokenAddress address with
      | none => ownedLoop chain address rest st
      | some bal =>
        if bal = 0 then ownedLoop chain address rest st
        else
          match getPropertyDetails chain p.id (some p.tokenId) st with
          | (none, st1) => ownedLoop chain address rest st1
          | (some ep, st1) =>
            let row : UserPropertyBalance :=
              ⟨address, p.tokenAddress, ep.id, ep.tokenId, toString bal⟩
            let st2 := saveUserBalance row st1
            let (l, st3) := ownedLoop chain address rest st2
            (⟨ep.id, ep.tokenId, ep.tokenAddress, ep.metadata, ep.totalSupply,
              toString bal⟩ :: l, st3)

/-- `PropertiesService.fetchPropertiesOwnedByUserFromBlockchain`. -/
def fetchPropertiesOwnedByUserFromBlockchain (chain : Chain) (address : String)
    (st : St) : List OwnedProperty × St :=
  let (allProps, st1) := findAllProperties chain st
  ownedLoop chain address allProps st1

/-- `PropertiesService.findPropertiesOwnedByUser`: non-empty ephemeral
hit, else the durable join (which refreshes the ephemeral key when
non-empty), else the blockchain path. -/
def findPropertiesOwnedByUser (chain : Chain) (address : String) (st : St) :
    List OwnedProperty × St :=
  let viaDbOrChain : List OwnedProperty × St :=
    let fromDb := userPropsFromDb st address
    if 0 < fromDb.length then
      let r := rset st.redis (RKey.userProps address) (RVal.userPropList fromDb)
      (fromDb, { st with redis := r })
    else
      let (l, st1) := fetchPropertiesOwnedByUserFromBlockchain chain address st
      if 0 < l.length then
        let r := rset st1.redis (RKey.userProps address) (RVal.userPropList l)
        (l, { st1 with redis := r })
      else (l, st1)
  match cacheGetUserProperties st address with
  | some l => if 0 < l.length then (l, st) else viaDbOrChain
  | none => viaDbOrChain

/-- `MarketplaceService.formatListingData`: resolve the NFT identity of
the listed property token (empty strings when unresolved), build the
DTO with `active` copied verbatim from the raw tuple, save the durable
row (5-minute expiry) and the ephemeral per-listing key, and return the
DTO unconditionally. -/
def formatListingData (chain : Chain) (raw : RawListing) (listingId : Nat)
    (st : St) : ListingDto × St :=
  let (nd, st1) := findNftDetailsByTokenAddress chain raw.propertyToken st
  let nftAddress := match nd with | some d => d.nftAddress | none => ""
  let tokenIdStr := match nd with | some d => toString d.tokenId | none => ""
  let dto : ListingDto :=
    ⟨listingId, raw.seller, nftAddress, tokenIdStr, raw.propertyToken,
      toString raw.pricePerToken, toString raw.tokenAmount, raw.isActive, "USDC"⟩
  let cl : CachedListing :=
    ⟨listingId, raw.seller, nftAddress, tokenIdStr, raw.propertyToken,
      toString raw.pricePerToken, toString raw.tokenAmount, raw.isActive, "USDC",
      chain.now + 300⟩
  let st2 := { st1 with dbListings := upsertListing cl st1.dbListings }
  let st3 := { st2 with redis := rset st2.redis (RKey.listing listingId) (RVal.listing dto) }
  (dto, st3)

/-- `MarketplaceService.fetchListingDetailsFromBlockchain`: read the raw
listing tuple; absent only when the call throws or the seller is the
zero address — the `isActive` field of the tuple is NOT checked. -/
def fetchListingDetailsFromBlockchain (chain : Chain) (listingId : Nat)
    (st : St) : Option ListingDto × St :=
  let st1 := bumpCold st
  if chain.marketplaceAvailable = false then (none, st1)
  else
    match chain.listingsAt listingId with
    | none => (none, st1)
    | some raw =>
      if raw.seller = zeroAddress then (none, st1)
      else
        let (dto, st2) := formatListingData chain raw listingId st1
        (some dto, st2)

/-- Rebuild the `ListingDto` from a durable `cached_listings` row. -/
def listingDtoOfCached (cl : CachedListing) : ListingDto :=
  ⟨cl.listingId, cl.seller, cl.nftAddress, cl.tokenId, cl.tokenAddress,
    cl.pricePerToken, cl.amount, cl.active, cl.currency⟩

/-- `MarketplaceService.getListingDetails`: ephemeral hit returned
as-is (no `active` check); durable hit filtered by `active = true` and
expiry; otherwise the cold fetch, whose result is cached and returned. -/
def getListingDetails (chain : Chain) (listingId : Nat) (st : St) :
    Option ListingDto × St :=
  match rget st.redis (RKey.listing listingId) with
  | some (RVal.listing l) => (some l, st)
  | _ =>
    match dbFindListing st.dbListings listingId chain.now with
    | some cl =>
      let dto := listingDtoOfCached cl
      let r := rset st.redis (RKey.listing listingId) (RVal.listing dto)
      (some dto, { st with redis := r })
    | none =>
      match fetchListingDetailsFromBlockchain chain listingId st with
      | (some l, st1) =>
        let r := rset st1.redis (RKey.listing listingId) (RVal.listing l)
        (some l, { st1 with redis := r })
      | (none, st1) => (none, st1)

/-- Environment of `BlockchainService.initAllPropertyTokens` (the
dynamic token-handle discovery): preconditions, the factory enumeration
(`Except.error` = the call rejected) and the per-address handle
constructor (`none` = the `ethers.Contract` constructor threw).
Handles are abstracted as `Nat`. -/
structure TokenInitEnv where
  providerReady : Bool
  factoryAvailable : Bool
  abiExists : Bool
  getAllTokens : Except String (List String)
  construct : String → Option Nat

/-- The per-address loop of the discovery step: each address is
constructed inside its own try/catch, so one failure skips only that
address; successes are stored keyed by the lowercased address. -/
def collectTokens (env : TokenInitEnv) : List String → List (String × Nat)
  | [] => []
  | a :: rest =>
    match env.construct a with
    | some c => (lower a, c) :: collectTokens env rest
    | none => collectTokens env rest

/-- `BlockchainService.initializeAllPropertyTokens` (modelled as
`initAllPropertyTokens`): missing prerequisites return early with an
empty map; a failed factory enumeration is caught and logged; the
result is always `Except.ok` — no failure propagates to the caller. -/
def initAllPropertyTokens (env : TokenInitEnv) :
    Except String (List (String × Nat)) :=
  if env.providerReady = false then Except.ok []
  else if env.factoryAvailable = false then Except.ok []
  else if env.abiExists = false then Except.ok []
  else
    match env.getAllTokens with
    | Except.error _ => Except.ok []
    | Except.ok toks => Except.ok (collectTokens env toks)

/-! Concrete inputs used by the witnesses and counterexamples. -/

/-- A single active registered property. -/
def regA : RegisteredProperty := ⟨"0xA", "0xTA", true, 0⟩

/-- A ledger with one active property `0xA` whose token `0xTA` has total
supply `"1000000"`. -/
def chain1 : Chain := {
  registryAvailable := true, nftAvailable := true, marketplaceAvailable := true,
  registry := [regA], getAllOk := true,
  propertyIndex := fun a => if a = "0xA" then some 1 else some 0,
  tokenURIat := fun _ => some "ipfs://m",
  ipfsDoc := fun _ => "doc",
  hasTokenContract := fun a => a == "0xTA",
  totalSupplyOf := fun a => if a = "0xTA" then some "1000000" else none,
  balanceOf := fun _ _ => some 0,
  listingsAt := fun _ => none,
  directByToken := fun _ => some none,
  now := 0 }

/-- The DTO `chain1`'s cold fetch assembles for `("0xA", 0)`. -/
def V1 : PropertyDto := ⟨"0xA", 0, "0xTA", "doc", "1000000"⟩

/-- The durable row corresponding to `V1`. -/
def rowA : CachedProperty := ⟨"0xA", 0, "0xTA", "doc", "1000000", true⟩

/-- State after the first `getPropertyDetails chain1 "0xA" (some 0)` on an
empty cache: both tiers hold `V1`, one cold fetch recorded. -/
def st1c : St := (getPropertyDetails chain1 "0xA" (some 0) emptySt).2

/-- `st1c` with the ephemeral tier flushed (simulating TTL expiry); the
durable tier still holds `rowA`. -/
def stFlushed : St := { st1c with redis := [] }

/-- A raw marketplace listing whose `isActive` field is false but whose
seller is non-zero. -/
def rawL : RawListing := ⟨"0xSELLER", "0xTOKL", 5, 10, false⟩

/-- A ledger whose marketplace has `rawL` at index 0 and whose registry
is empty. -/
def chainL : Chain := {
  registryAvailable := true, nftAvailable := true, marketplaceAvailable := true,
  registry := [], getAllOk := true,
  propertyIndex := fun _ => some 0,
  tokenURIat := fun _ => none,
  ipfsDoc := fun _ => "",
  hasTokenContract := fun _ => false,
  totalSupplyOf := fun _ => none,
  balanceOf := fun _ _ => none,
  listingsAt := fun i => if i = 0 then some rawL else none,
  directByToken := fun _ => some none,
  now := 0 }

/-- A state whose ephemeral tier holds a stale per-entity property key. -/
def stStale : St := { emptySt with redis := [(RKey.prop "0xA" (some 0), RVal.prop V1)] }

/-- Registry list for the reverse-lookup witness: the first entry
matches the token but is inactive, the next two are active matches. -/
def props6 : List RegisteredProperty :=
  [⟨"0xN0", "0xT", false, 0⟩, ⟨"0xN1", "0xT", true, 0⟩, ⟨"0xN2", "0xT", true, 0⟩]

/-- Discovery environment with a failing middle address. -/
def env8 : TokenInitEnv :=
  ⟨true, true, true, Except.ok ["0xG1", "0xBAD", "0xG2"],
    fun a => if a = "0xBAD" then none else if a = "0xG1" then some 1 else some 2⟩

/-- An active durable listing row used by the witnesses. -/
def clA : CachedListing := ⟨7, "0xS", "", "", "0xT", "1", "1", true, "USDC", 100⟩

/-- A balance row for user `0xU` holding token `0xTA` of property `0xA`. -/
def ubA : UserPropertyBalance := ⟨"0xU", "0xTA", "0xA", 0, "5"⟩

/-- A state whose durable tier holds `rowA` and the balance row `ubA`. -/
def stUB : St := { emptySt with dbProps := [rowA], dbBalances := [ubA] }

/-- The owned-property entry the durable join assembles for `0xU`. -/
def oU : OwnedProperty := ⟨"0xA", 0, "0xTA", "doc", "1000000", "5"⟩

/-! Store-primitive lemmas. -/

theorem rget_rset_self (r : List (RKey × RVal)) (k : RKey) (v : RVal) :
    rget (rset r k v) k = some v := by
  simp [rget, rset]

theorem rget_rset_of_ne (r : List (RKey × RVal)) {k k' : RKey} (h : k ≠ k')
    (v : RVal) : rget (rset r k' v) k = rget r k := by
  simp [rget, rset, h]

theorem rget_rdel_self (r : List (RKey × RVal)) (k : RKey) :
    rget (rdel r k) k = none := by
  induction r with
  | nil => rfl
  | cons p rest ih =>
    by_cases h : p.1 = k
    · simpa [rdel, List.filter, h] using ih
    · have : ¬ k = p.1 := fun hk => h hk.symm
      simpa [rdel, List.filter, h, rget, this] using ih

theorem rget_rdel_of_ne {k k' : RKey} (h : k ≠ k') (r : List (RKey × RVal)) :
    rget (rdel r k') k = rget r k := by
  induction r with
  | nil => rfl
  | cons p rest ih =>
    obtain ⟨k1, v1⟩ := p
    by_cases hp : k1 = k'
    · subst hp
      simpa [rdel, List.filter, rget, h] using ih
    · by_cases hk : k = k1
      · subst hk
        simp [rdel, List.filter, rget, hp, Ne.symm hp]
      · simpa [rdel, List.filter, rget, hp, hk] using ih

theorem rget_rdel_absent {r : List (RKey × RVal)} {k : RKey}
    (h : rget r k = none) (k' : RKey) : rget (rdel r k') k = none := by
  by_cases hk : k = k'
  · subst hk; exact rget_rdel_self r k
  · rw [rget_rdel_of_ne hk]; exact h

theorem lookupProp_upsertProp_self (row : CachedProperty)
    (db : List CachedProperty) :
    lookupProp (upsertProp row db) row.id row.tokenId = some row := by
  induction db with
  | nil => simp [upsertProp, lookupProp]
  | cons r rest ih =>
    by_cases h : r.id = row.id ∧ r.tokenId = row.tokenId
    · simp [upsertProp, lookupProp, h]
    · simp [upsertProp, lookupProp, h, ih]

theorem mem_upsertProp {r row : CachedProperty} {db : List CachedProperty}
    (h : r ∈ upsertProp row db) : r = row ∨ r ∈ db := by
  induction db with
  | nil => simpa [upsertProp] using h
  | cons x rest ih =>
    by_cases hx : x.id = row.id ∧ x.tokenId = row.tokenId
    · simp only [upsertProp, if_pos hx, List.mem_cons] at h
      rcases h with h | h
      · exact Or.inl h
      · exact Or.inr (List.mem_cons_of_mem _ h)
    · simp only [upsertProp, if_neg hx, List.mem_cons] at h
      rcases h with h | h
      · exact Or.inr (by simp [h])
      · rcases ih h with h' | h'
        · exact Or.inl h'
        · exact Or.inr (List.mem_cons_of_mem _ h')

theorem upsertProp_idem (row : CachedProperty) (db : List CachedProperty) :
    upsertProp row (upsertProp row db) = upsertProp row db := by
  induction db with
  | nil => simp [upsertProp]
  | cons r rest ih =>
    by_cases h : r.id = row.id ∧ r.tokenId = row.tokenId
    · simp [upsertProp, h]
    · simp [upsertProp, h, ih]

theorem upsertBal_idem (row : UserPropertyBalance)
    (db : List UserPropertyBalance) :
    upsertBal row (upsertBal row db) = upsertBal row db := by
  induction db with
  | nil => simp [upsertBal]
  | cons r rest ih =>
    by_cases h : r.userAddress = row.userAddress ∧
        r.propertyTokenAddress = row.propertyTokenAddress
    · simp [upsertBal, h]
    · simp [upsertBal, h, ih]

theorem lookupProp_filter_absent {db : List CachedProperty} {i : String}
    {t : Nat} (h : lookupProp db i t = none) (p : CachedProperty → Bool) :
    lookupProp (db.filter p) i t = none := by
  induction db with
  | nil => rfl
  | cons r rest ih =>
    by_cases hr : r.id = i ∧ r.tokenId = t
    · simp [lookupProp, hr] at h
    · simp only [lookupProp, if_neg hr] at h
      by_cases hp : p r
      · simpa [List.filter, hp, lookupProp, hr] using ih h
      · simpa [List.filter, hp] using ih h

/-! Case-analysis lemmas for the cold-fetch functions. -/

theorem formatProperty_cases (chain : Chain) (p : RegisteredProperty) (i : Nat)
    (st : St) :
    formatProperty chain p i st = (none, st) ∨
    ∃ dto : PropertyDto,
      dto.id = p.propertyNFT ∧ dto.tokenId = i ∧
      dto.tokenAddress = p.propertyToken ∧
      formatProperty chain p i st =
        (some dto,
          { st with
            dbProps := upsertProp
              ⟨dto.id, dto.tokenId, dto.tokenAddress, dto.metadata,
                dto.totalSupply, true⟩ st.dbProps,
            redis := rset
              (rset st.redis (RKey.prop dto.id (some dto.tokenId)) (RVal.prop dto))
              (RKey.propByToken dto.tokenAddress) (RVal.prop dto) }) := by
  unfold formatProperty
  split
  · exact Or.inl rfl
  · split
    · exact Or.inl rfl
    · split
      · exact Or.inl rfl
      · cases hu : chain.tokenURIat i with
        | none => exact Or.inl rfl
        | some uri =>
          cases hs : chain.totalSupplyOf p.propertyToken with
          | none => exact Or.inl rfl
          | some supply => exact Or.inr ⟨_, rfl, rfl, rfl, rfl⟩

theorem fetchPropertyAt_cases (chain : Chain) (nft : String) (rid : Nat)
    (st : St) :
    fetchPropertyAt chain nft rid st = (none, st) ∨
    (∃ pd, chain.registry.get? rid = some pd ∧ pd.isActive = false ∧
      fetchPropertyAt chain nft rid st =
        (none, invalidatePropertyCaches nft pd.propertyToken (some rid) st)) ∨
    (∃ pd, chain.registry.get? rid = some pd ∧ pd.isActive = true ∧
      fetchPropertyAt chain nft rid st = formatProperty chain pd rid st) := by
  unfold fetchPropertyAt
  split
  · exact Or.inl rfl
  · rename_i pd hreg
    split
    · exact Or.inl rfl
    · split
      · rename_i hact
        exact Or.inr (Or.inl ⟨pd, hreg, hact, rfl⟩)
      · rename_i hact
        have hT : pd.isActive = true := by
          cases h : pd.isActive
          · exact absurd h hact
          · rfl
        exact Or.inr (Or.inr ⟨pd, hreg, hT, rfl⟩)

theorem fetchProperty_cases (chain : Chain) (nft : String) (t : Option Nat)
    (st : St) :
    fetchPropertyDetailsFromBlockchain chain nft t st = (none, bumpCold st) ∨
    (∃ rid pd, chain.registry.get? rid = some pd ∧ pd.isActive = false ∧
      fetchPropertyDetailsFromBlockchain chain nft t st =
        (none, invalidatePropertyCaches nft pd.propertyToken (some rid)
          (bumpCold st))) ∨
    (∃ rid pd, chain.registry.get? rid = some pd ∧ pd.isActive = true ∧
      (t = some rid ∨ t = none) ∧
      fetchPropertyDetailsFromBlockchain chain nft t st =
        formatProperty chain pd rid (bumpCold st)) := by
  unfold fetchPropertyDetailsFromBlockchain
  split
  · exact Or.inl rfl
  · cases t with
    | some tid =>
      rcases fetchPropertyAt_cases chain nft tid (bumpCold st) with
        h | ⟨pd, hreg, hact, h⟩ | ⟨pd, hreg, hact, h⟩
      · exact Or.inl h
      · exact Or.inr (Or.inl ⟨tid, pd, hreg, hact, h⟩)
      · exact Or.inr (Or.inr ⟨tid, pd, hreg, hact, Or.inl rfl, h⟩)
    | none =>
      cases hpi : chain.propertyIndex nft with
      | none => exact Or.inl rfl
      | some n =>
        cases n with
        | zero => exact Or.inl rfl
        | succ m =>
          rcases fetchPropertyAt_cases chain nft m (bumpCold st) with
            h | ⟨pd, hreg, hact, h⟩ | ⟨pd, hreg, hact, h⟩
          · exact Or.inl h
          · exact Or.inr (Or.inl ⟨m, pd, hreg, hact, h⟩)
          · exact Or.inr (Or.inr ⟨m, pd, hreg, hact, Or.inr rfl, h⟩)

/-! Derived lemmas about the single-property read path. -/

theorem fetchProperty_coldFetches (chain : Chain) (nft : String)
    (t : Option Nat) (st : St) :
    (fetchPropertyDetailsFromBlockchain chain nft t st).2.coldFetches =
      st.coldFetches + 1 := by
  rcases fetchProperty_cases chain nft t st with
    h | ⟨rid, pd, _, _, h⟩ | ⟨rid, pd, _, _, _, h⟩
  · rw [h]; rfl
  · rw [h]; rfl
  · rw [h]
    rcases formatProperty_cases chain pd rid (bumpCold st) with h2 | ⟨dto, _, _, _, h2⟩
    · rw [h2]; rfl
    · rw [h2]; rfl

theorem getPropertyDetails_of_miss {st : St} {nft : String} {t : Option Nat}
    (chain : Chain) (h : rget st.redis (RKey.prop nft t) = none) :
    getPropertyDetails chain nft t st =
      fetchPropertyDetailsFromBlockchain chain nft t st := by
  unfold getPropertyDetails
  rw [h]

theorem fetchProperty_success_spec (chain : Chain) (nft : String)
    (t : Option Nat) (st : St) (V : PropertyDto)
    (h : (fetchPropertyDetailsFromBlockchain chain nft t st).1 = some V) :
    ∃ rid pd, chain.registry.get? rid = some pd ∧ pd.isActive = true ∧
      V.id = pd.propertyNFT ∧ V.tokenId = rid ∧
      V.tokenAddress = pd.propertyToken ∧ (t = some rid ∨ t = none) ∧
      (fetchPropertyDetailsFromBlockchain chain nft t st).2 =
        { st with
          coldFetches := st.coldFetches + 1,
          dbProps := upsertProp
            ⟨V.id, V.tokenId, V.tokenAddress, V.metadata, V.totalSupply, true⟩
            st.dbProps,
          redis := rset
            (rset st.redis (RKey.prop V.id (some V.tokenId)) (RVal.prop V))
            (RKey.propByToken V.tokenAddress) (RVal.prop V) } := by
  rcases fetchProperty_cases chain nft t st with
    hc | ⟨rid, pd, hreg, hact, hc⟩ | ⟨rid, pd, hreg, hact, ht, hc⟩
  · rw [hc] at h; cases h
  · rw [hc] at h; cases h
  · rcases formatProperty_cases chain pd rid (bumpCold st) with
      h2 | ⟨dto, hid, htid, htok, h2⟩
    · rw [hc, h2] at h; cases h
    · rw [hc, h2] at h
      injection h with h
      subst h
      refine ⟨rid, pd, hreg, hact, hid, htid, htok, ht, ?_⟩
      rw [hc, h2]; rfl

/-! The all-rows-active invariant of the durable property table. -/

/-- Every row of a durable property table slice has `isActive = true`. -/
def allActive (db : List CachedProperty) : Prop := ∀ r ∈ db, r.isActive = true

theorem allActive_upsertProp {db : List CachedProperty} {row : CachedProperty}
    (hdb : allActive db) (hrow : row.isActive = true) :
    allActive (upsertProp row db) := by
  intro r hr
  rcases mem_upsertProp hr with h | h
  · rw [h]; exact hrow
  · exact hdb r h

theorem allActive_filter {db : List CachedProperty} (hdb : allActive db)
    (p : CachedProperty → Bool) : allActive (db.filter p) := by
  intro r hr
  exact hdb r (List.mem_of_mem_filter hr)

theorem allActive_formatProperty (chain : Chain) (p : RegisteredProperty)
    (i : Nat) (st : St) (hdb : allActive st.dbProps) :
    allActive (formatProperty chain p i st).2.dbProps := by
  rcases formatProperty_cases chain p i st with h | ⟨dto, _, _, _, h⟩ <;> rw [h]
  · exact hdb
  · exact allActive_upsertProp hdb rfl

theorem allActive_fetchProperty (chain : Chain) (nft : String) (t : Option Nat)
    (st : St) (hdb : allActive st.dbProps) :
    allActive (fetchPropertyDetailsFromBlockchain chain nft t st).2.dbProps := by
  rcases fetchProperty_cases chain nft t st with
    h | ⟨rid, pd, _, _, h⟩ | ⟨rid, pd, _, _, _, h⟩ <;> rw [h]
  · exact hdb
  · exact allActive_filter hdb _
  · exact allActive_formatProperty chain pd rid (bumpCold st) hdb

theorem allActive_formatActiveList (chain : Chain) :
    ∀ (l : List RegisteredProperty) (i : Nat) (st : St),
      allActive st.dbProps → allActive (formatActiveList chain l i st).2.dbProps
  | [], _, _, h => h
  | p :: rest, i, st, h => by
    unfold formatActiveList
    split
    · exact allActive_formatActiveList chain rest (i + 1) st h
    · have h1 := allActive_formatProperty chain p i st h
      split
      · rename_i dto st1 heq
        rw [heq] at h1
        exact allActive_formatActiveList chain rest (i + 1) st1 h1
      · rename_i st1 heq
        rw [heq] at h1
        exact allActive_formatActiveList chain rest (i + 1) st1 h1

theorem allActive_fetchAll (chain : Chain) (st : St)
    (hdb : allActive st.dbProps) :
    allActive (fetchAllPropertiesFromBlockchain chain st).2.dbProps := by
  unfold fetchAllPropertiesFromBlockchain
  split
  · exact hdb
  · split
    · exact hdb
    · exact allActive_formatActiveList chain chain.registry 0 (bumpCold st) hdb

/-! Frame lemmas: the population path never touches the ghost log, the
balance table, or the user-scoped ephemeral keys. -/

theorem formatProperty_frame (chain : Chain) (p : RegisteredProperty) (i : Nat)
    (st : St) :
    (formatProperty chain p i st).2.log = st.log ∧
    (formatProperty chain p i st).2.dbBalances = st.dbBalances ∧
    ∀ u, rget (formatProperty chain p i st).2.redis (RKey.userProps u) =
      rget st.redis (RKey.userProps u) := by
  rcases formatProperty_cases chain p i st with h | ⟨dto, _, _, _, h⟩ <;> rw [h]
  · exact ⟨rfl, rfl, fun u => rfl⟩
  · refine ⟨rfl, rfl, fun u => ?_⟩
    rw [rget_rset_of_ne _ (by simp), rget_rset_of_ne _ (by simp)]

theorem formatActiveList_frame (chain : Chain) :
    ∀ (l : List RegisteredProperty) (i : Nat) (st : St),
      (formatActiveList chain l i st).2.log = st.log ∧
      (formatActiveList chain l i st).2.dbBalances = st.dbBalances ∧
      ∀ u, rget (formatActiveList chain l i st).2.redis (RKey.userProps u) =
        rget st.redis (RKey.userProps u)
  | [], _, _ => ⟨rfl, rfl, fun _ => rfl⟩
  | p :: rest, i, st => by
    unfold formatActiveList
    split
    · exact formatActiveList_frame chain rest (i + 1) st
    · have h1 := formatProperty_frame chain p i st
      split
      · rename_i dto st1 heq
        rw [heq] at h1
        have h2 := formatActiveList_frame chain rest (i + 1) st1
        exact ⟨h2.1.trans h1.1, h2.2.1.trans h1.2.1,
          fun u => (h2.2.2 u).trans (h1.2.2 u)⟩
      · rename_i st1 heq
        rw [heq] at h1
        have h2 := formatActiveList_frame chain rest (i + 1) st1
        exact ⟨h2.1.trans h1.1, h2.2.1.trans h1.2.1,
          fun u => (h2.2.2 u).trans (h1.2.2 u)⟩

theorem fetchAll_frame (chain : Chain) (st : St) :
    (fetchAllPropertiesFromBlockchain chain st).2.log = st.log ∧
    (fetchAllPropertiesFromBlockchain chain st).2.dbBalances = st.dbBalances ∧
    ∀ u, rget (fetchAllPropertiesFromBlockchain chain st).2.redis
      (RKey.userProps u) = rget st.redis (RKey.userProps u) := by
  unfold fetchAllPropertiesFromBlockchain
  split
  · exact ⟨rfl, rfl, fun _ => rfl⟩
  · split
    · exact ⟨rfl, rfl, fun _ => rfl⟩
    · exact formatActiveList_frame chain chain.registry 0 (bumpCold st)

theorem populate_frame (chain : Chain) (st : St) :
    (populateInitialPropertyCache chain st).log = st.log ∧
    (populateInitialPropertyCache chain st).dbBalances = st.dbBalances ∧
    ∀ u, rget (populateInitialPropertyCache chain st).redis (RKey.userProps u) =
      rget st.redis (RKey.userProps u) := by
  unfold populateInitialPropertyCache
  have h := fetchAll_frame chain st
  split
  · rename_i props st1 heq
    rw [heq] at h
    split
    · exact ⟨h.1, h.2.1, fun u => by
        rw [rget_rset_of_ne _ (by simp)]
        exact h.2.2 u⟩
    · exact ⟨h.1, h.2.1, h.2.2⟩

/-! Reverse-lookup fallback: shift and characterization lemmas. -/

theorem findByTokenScan_shift (token : String) :
    ∀ (props : List RegisteredProperty) (i : Nat),
      findByTokenScan token props (i + 1) =
        (findByTokenScan token props i).map
          (fun d => ⟨d.nftAddress, d.tokenId + 1⟩)
  | [], _ => rfl
  | p :: rest, i => by
    unfold findByTokenScan
    by_cases hg : p.isActive = true ∧ lower p.propertyToken = lower token
    · rw [if_pos hg, if_pos hg]; rfl
    · rw [if_neg hg, if_neg hg]
      exact findByTokenScan_shift token rest (i + 1)

theorem findByTokenScan_spec (token : String) :
    ∀ props : List RegisteredProperty,
      (∀ d, findByTokenScan token props 0 = some d →
        ∃ p, props.get? d.tokenId = some p ∧ p.isActive = true ∧
          lower p.propertyToken = lower token ∧
          d.nftAddress = p.propertyNFT ∧
          ∀ j q, j < d.tokenId → props.get? j = some q →
            ¬(q.isActive = true ∧ lower q.propertyToken = lower token)) ∧
      (findByTokenScan token props 0 = none ↔
        ∀ j q, props.get? j = some q →
          ¬(q.isActive = true ∧ lower q.propertyToken = lower token))
  | [] => by
    constructor
    · intro d h; cases h
    · constructor
      · intro _ j q hj; cases hj
      · intro _; rfl
  | p :: rest => by
    have ih := findByTokenScan_spec token rest
    by_cases hg : p.isActive = true ∧ lower p.propertyToken = lower token
    · constructor
      · intro d h
        unfold findByTokenScan at h
        rw [if_pos hg] at h
        injection h with h
        subst h
        exact ⟨p, rfl, hg.1, hg.2, rfl, fun j q hj _ => absurd hj (Nat.not_lt_zero j)⟩
      · constructor
        · intro h
          unfold findByTokenScan at h
          rw [if_pos hg] at h
          cases h
        · intro hall
          exact absurd hg (hall 0 p rfl)
    · have hstep : findByTokenScan token (p :: rest) 0 =
          findByTokenScan token rest (0 + 1) := by
        show (if p.isActive = true ∧ lower p.propertyToken = lower token
          then some ⟨p.propertyNFT, 0⟩
          else findByTokenScan token rest (0 + 1)) =
            findByTokenScan token rest (0 + 1)
        rw [if_neg hg]
      have hEq : findByTokenScan token (p :: rest) 0 =
          (findByTokenScan token rest 0).map
            (fun d => ⟨d.nftAddress, d.tokenId + 1⟩) := by
        rw [hstep]
        exact findByTokenScan_shift token rest 0
      constructor
      · intro d h
        rw [hEq] at h
        rcases Option.map_eq_some'.mp h with ⟨d0, hd0, hmap⟩
        rcases ih.1 d0 hd0 with ⟨q, hq, hact, htok, hnft, hmin⟩
        subst hmap
        refine ⟨q, hq, hact, htok, hnft, ?_⟩
        intro j q' hj hjq
        cases j with
        | zero =>
          have : q' = p := by injection hjq with e; exact e.symm
          subst this
          exact hg
        | succ m =>
          exact hmin m q' (Nat.lt_of_succ_lt_succ hj) hjq
      · rw [hEq, Option.map_eq_none', ih.2]
        constructor
        · intro hall j q' hjq
          cases j with
          | zero =>
            have : q' = p := by injection hjq with e; exact e.symm
            subst this
            exact hg
          | succ m => exact hall m q' hjq
        · intro hall j q' hjq
          exact hall (j + 1) q' hjq

/-! Idempotency and key-uniqueness helpers for the durable writes. -/

theorem mem_upsertBal {r row : UserPropertyBalance}
    {db : List UserPropertyBalance} (h : r ∈ upsertBal row db) :
    r = row ∨ r ∈ db := by
  induction db with
  | nil => simpa [upsertBal] using h
  | cons x rest ih =>
    by_cases hx : x.userAddress = row.userAddress ∧
        x.propertyTokenAddress = row.propertyTokenAddress
    · simp only [upsertBal, if_pos hx, List.mem_cons] at h
      rcases h with h | h
      · exact Or.inl h
      · exact Or.inr (List.mem_cons_of_mem _ h)
    · simp only [upsertBal, if_neg hx, List.mem_cons] at h
      rcases h with h | h
      · exact Or.inr (by simp [h])
      · rcases ih h with h' | h'
        · exact Or.inl h'
        · exact Or.inr (List.mem_cons_of_mem _ h')

theorem filter_idem {α : Type} (p : α → Bool) (l : List α) :
    (l.filter p).filter p = l.filter p := by
  induction l with
  | nil => rfl
  | cons a rest ih =>
    by_cases ha : p a
    · simp [List.filter, ha, ih]
    · simp [List.filter, ha, ih]

theorem rdel_idem (r : List (RKey × RVal)) (k : RKey) :
    rdel (rdel r k) k = rdel r k :=
  filter_idem _ r

theorem rdel_comm (r : List (RKey × RVal)) (k k' : RKey) :
    rdel (rdel r k) k' = rdel (rdel r k') k := by
  unfold rdel
  exact List.filter_comm _ _ r

/-- Rows with pairwise-distinct composite keys: the uniqueness invariant
the `cached_properties` unique constraint maintains. -/
def distinctPropKeys (db : List CachedProperty) : Prop :=
  db.Pairwise (fun a b => ¬(a.id = b.id ∧ a.tokenId = b.tokenId))

/-- Rows with pairwise-distinct natural keys in `user_property_balances`. -/
def distinctBalKeys (db : List UserPropertyBalance) : Prop :=
  db.Pairwise (fun a b =>
    ¬(a.userAddress = b.userAddress ∧
      a.propertyTokenAddress = b.propertyTokenAddress))

theorem distinctPropKeys_upsert {row : CachedProperty}
    {db : List CachedProperty} (h : distinctPropKeys db) :
    distinctPropKeys (upsertProp row db) := by
  induction db with
  | nil => simp [upsertProp, distinctPropKeys]
  | cons r rest ih =>
    rcases List.pairwise_cons.mp h with ⟨h1, h2⟩
    by_cases hm : r.id = row.id ∧ r.tokenId = row.tokenId
    · rw [upsertProp, if_pos hm]
      refine List.pairwise_cons.mpr ⟨?_, h2⟩
      intro b hb hc
      exact h1 b hb ⟨hm.1.trans hc.1, hm.2.trans hc.2⟩
    · rw [upsertProp, if_neg hm]
      refine List.pairwise_cons.mpr ⟨?_, ih h2⟩
      intro b hb
      rcases mem_upsertProp hb with hb' | hb'
      · rw [hb']; exact hm
      · exact h1 b hb'

theorem distinctBalKeys_upsert {row : UserPropertyBalance}
    {db : List UserPropertyBalance} (h : distinctBalKeys db) :
    distinctBalKeys (upsertBal row db) := by
  induction db with
  | nil => simp [upsertBal, distinctBalKeys]
  | cons r rest ih =>
    rcases List.pairwise_cons.mp h with ⟨h1, h2⟩
    by_cases hm : r.userAddress = row.userAddress ∧
        r.propertyTokenAddress = row.propertyTokenAddress
    · rw [upsertBal, if_pos hm]
      refine List.pairwise_cons.mpr ⟨?_, h2⟩
      intro b hb hc
      exact h1 b hb ⟨hm.1.trans hc.1, hm.2.trans hc.2⟩
    · rw [upsertBal, if_neg hm]
      refine List.pairwise_cons.mpr ⟨?_, ih h2⟩
      intro b hb
      rcases mem_upsertBal hb with hb' | hb'
      · rw [hb']; exact hm
      · exact h1 b hb'

/-! Claim theorems. -/

/-- Claim C9 (code evaluation at the failing input): on an empty
ephemeral cache, `cacheGetAllProperties` resolves to the empty array,
but `cacheGetUserProperties` and `cacheGetAllListings` resolve to
null/undefined (`none`): their `|| []` fallback is applied to the
un-awaited Promise and is dead code, so the claim that all three list
getters resolve to the empty array fails on the code as written. -/
theorem listGettersMissResults :
    cacheGetAllProperties emptySt = [] ∧
    cacheGetUserProperties emptySt "0xUser" = none ∧
    cacheGetAllListings emptySt = none :=
  ⟨rfl, rfl, rfl⟩

theorem mem_collectTokens (env : TokenInitEnv) :
    ∀ (toks : List String) (a : String) (c : Nat), a ∈ toks →
      env.construct a = some c → (lower a, c) ∈ collectTokens env toks
  | [], a, _, h, _ => absurd h (List.not_mem_nil a)
  | b :: rest, a, c, h, hc => by
    rcases List.mem_cons.mp h with h | h
    · subst h
      rw [collectTokens, hc]
      exact List.mem_cons_self _ _
    · cases hb : env.construct b with
      | some cb =>
        rw [collectTokens, hb]
        exact List.mem_cons_of_mem _ (mem_collectTokens env rest a c h hc)
      | none =>
        rw [collectTokens, hb]
        exact mem_collectTokens env rest a c h hc

/-- Claim C8: the dynamic handle discovery never throws to the caller
(the result is always `Except.ok`), and when the factory enumeration
succeeds, every address whose handle construction succeeds ends up in
the map regardless of failures of the other addresses. -/
theorem tokenDiscoveryPartialFailure :
    (∀ env : TokenInitEnv, ∃ m, initAllPropertyTokens env = Except.ok m) ∧
    (∀ (env : TokenInitEnv) (toks : List String),
      env.providerReady = true → env.factoryAvailable = true →
      env.abiExists = true → env.getAllTokens = Except.ok toks →
      initAllPropertyTokens env = Except.ok (collectTokens env toks) ∧
      ∀ a c, a ∈ toks → env.construct a = some c →
        (lower a, c) ∈ collectTokens env toks) := by
  constructor
  · intro env
    unfold initAllPropertyTokens
    split
    · exact ⟨_, rfl⟩
    · split
      · exact ⟨_, rfl⟩
      · split
        · exact ⟨_, rfl⟩
        · cases env.getAllTokens with
          | error e => exact ⟨_, rfl⟩
          | ok toks => exact ⟨_, rfl⟩
  · intro env toks h1 h2 h3 h4
    refine ⟨by simp [initAllPropertyTokens, h1, h2, h3, h4], ?_⟩
    intro a c ha hc
    exact mem_collectTokens env toks a c ha hc

/-- Claim C8 witness: in `env8` the middle address fails to construct,
yet the discovery returns `ok` and the last address's handle is present. -/
theorem tokenDiscoveryPartialFailure_witness :
    (∃ m, initAllPropertyTokens env8 = Except.ok m) ∧
    (lower "0xG2", 2) ∈ collectTokens env8 ["0xG1", "0xBAD", "0xG2"] := by
  refine ⟨tokenDiscoveryPartialFailure.1 env8, ?_⟩
  exact (tokenDiscoveryPartialFailure.2 env8 ["0xG1", "0xBAD", "0xG2"]
    rfl rfl rfl rfl).2 "0xG2" 2 (by simp) (by rfl)

/-- Claim C6: the reverse-lookup fallback scan returns the first
registered entry (in list order) that is active and matches the token
address case-insensitively; every entry it returns is active; it
returns `none` exactly when no active entry matches; and when the
direct lookup finds nothing, `findNftDetailsByTokenAddressFromBlockchain`
returns exactly the fallback scan's result. -/
theorem reverseLookupFallbackSpec :
    (∀ (props : List RegisteredProperty) (token : String) (d : NftDetails),
      findByTokenScan token props 0 = some d →
        ∃ p, props.get? d.tokenId = some p ∧ p.isActive = true ∧
          lower p.propertyToken = lower token ∧
          d.nftAddress = p.propertyNFT ∧
          ∀ j q, j < d.tokenId → props.get? j = some q →
            ¬(q.isActive = true ∧ lower q.propertyToken = lower token)) ∧
    (∀ (props : List RegisteredProperty) (token : String),
      findByTokenScan token props 0 = none ↔
        ∀ j q, props.get? j = some q →
          ¬(q.isActive = true ∧ lower q.propertyToken = lower token)) ∧
    (∀ (chain : Chain) (token : String) (st : St),
      chain.registryAvailable = true → chain.getAllOk = true →
      chain.directByToken token = some none →
      (findNftDetailsByTokenAddressFromBlockchain chain token st).1 =
        findByTokenScan token chain.registry 0) := by
  refine ⟨fun props token => (findByTokenScan_spec token props).1,
    fun props token => (findByTokenScan_spec token props).2, ?_⟩
  intro chain token st h1 h2 h3
  simp [findNftDetailsByTokenAddressFromBlockchain, h1, h2, h3]

/-- Claim C6 witness: in `props6` the first matching entry is inactive
and is skipped; the scan returns the active match at index 1. -/
theorem reverseLookupFallbackSpec_witness :
    ∃ p, props6.get? 1 = some p ∧ p.isActive = true ∧
      lower p.propertyToken = lower "0xT" ∧
      ("0xN1" : String) = p.propertyNFT ∧
      ∀ j q, j < 1 → props6.get? j = some q →
        ¬(q.isActive = true ∧ lower q.propertyToken = lower "0xT") :=
  reverseLookupFallbackSpec.1 props6 "0xT" ⟨"0xN1", 1⟩ (by rfl)

/-- Claim C7: repeating a population write (`saveToCachedProperties`,
`saveUserBalance`) or an invalidation (`invalidatePropertyCaches`) with
the identical payload leaves the durable-and-ephemeral state exactly as
after one application, and the upserts preserve key-uniqueness (no
duplicate rows for a natural key). -/
theorem durableWritesIdempotent :
    (∀ (dto : PropertyDto) (st : St),
      saveToCachedProperties dto (saveToCachedProperties dto st) =
        saveToCachedProperties dto st) ∧
    (∀ (row : UserPropertyBalance) (st : St),
      saveUserBalance row (saveUserBalance row st) = saveUserBalance row st) ∧
    (∀ (nft tok : String) (t : Option Nat) (st : St),
      invalidatePropertyCaches nft tok t (invalidatePropertyCaches nft tok t st) =
        invalidatePropertyCaches nft tok t st) ∧
    (∀ (row : CachedProperty) (db : List CachedProperty),
      distinctPropKeys db → distinctPropKeys (upsertProp row db)) ∧
    (∀ (row : UserPropertyBalance) (db : List UserPropertyBalance),
      distinctBalKeys db → distinctBalKeys (upsertBal row db)) := by
  have hredis : ∀ (r : List (RKey × RVal)) (k1 k2 k3 : RKey),
      rdel (rdel (rdel (rdel (rdel (rdel r k1) k2) k3) k1) k2) k3 =
        rdel (rdel (rdel r k1) k2) k3 := by
    intro r k1 k2 k3
    rw [rdel_comm (rdel (rdel r k1) k2) k3 k1,
      rdel_comm (rdel r k1) k2 k1, rdel_idem r k1,
      rdel_comm (rdel (rdel r k1) k2) k3 k2,
      rdel_idem (rdel r k1) k2,
      rdel_idem (rdel (rdel r k1) k2) k3]
  refine ⟨fun dto st => ?_, fun row st => ?_, fun nft tok t st => ?_,
    fun row db h => distinctPropKeys_upsert h,
    fun row db h => distinctBalKeys_upsert h⟩
  · simp [saveToCachedProperties, upsertProp_idem]
  · simp [saveUserBalance, upsertBal_idem]
  · unfold invalidatePropertyCaches
    congr 1
    · exact hredis st.redis _ _ _
    · exact filter_idem _ st.dbProps
    · exact filter_idem _ st.dbBalances

/-- Claim C7 witness: concrete double writes coincide with single
writes, and uniqueness is preserved on a singleton table. -/
theorem durableWritesIdempotent_witness :
    saveToCachedProperties V1 (saveToCachedProperties V1 stUB) =
      saveToCachedProperties V1 stUB ∧
    saveUserBalance ubA (saveUserBalance ubA stUB) = saveUserBalance ubA stUB ∧
    invalidatePropertyCaches "0xA" "0xTA" (some 0)
      (invalidatePropertyCaches "0xA" "0xTA" (some 0) stUB) =
      invalidatePropertyCaches "0xA" "0xTA" (some 0) stUB ∧
    distinctPropKeys (upsertProp rowA [rowA]) := by
  obtain ⟨h1, h2, h3, h4, _⟩ := durableWritesIdempotent
  refine ⟨h1 V1 stUB, h2 ubA stUB, h3 "0xA" "0xTA" (some 0) stUB, ?_⟩
  exact h4 rowA [rowA] (by simp [distinctPropKeys])

/-- Claim C2: starting from an empty cache, if the cold fetch yields `V`
for key `(nft, tid)` (with `V.id = nft`, i.e. the caller uses the
entity's canonical address), the first `getPropertyDetails` returns `V`
and stores it in both the ephemeral tier and the durable tier, and a
second `getPropertyDetails` returns `V` from the ephemeral tier without
invoking the cold fetch again (the counter stays at 1). -/
theorem readThroughPopulatesBothTiers (chain : Chain) (nft : String)
    (tid : Nat) (V : PropertyDto)
    (hV : (fetchPropertyDetailsFromBlockchain chain nft (some tid) emptySt).1 =
      some V)
    (hid : V.id = nft) :
    (getPropertyDetails chain nft (some tid) emptySt).1 = some V ∧
    rget (getPropertyDetails chain nft (some tid) emptySt).2.redis
      (RKey.prop nft (some tid)) = some (RVal.prop V) ∧
    lookupProp (getPropertyDetails chain nft (some tid) emptySt).2.dbProps
      nft tid = some ⟨nft, tid, V.tokenAddress, V.metadata, V.totalSupply, true⟩ ∧
    (getPropertyDetails chain nft (some tid) emptySt).2.coldFetches = 1 ∧
    (getPropertyDetails chain nft (some tid)
      (getPropertyDetails chain nft (some tid) emptySt).2).1 = some V ∧
    (getPropertyDetails chain nft (some tid)
      (getPropertyDetails chain nft (some tid) emptySt).2).2.coldFetches = 1 := by
  have hm : rget emptySt.redis (RKey.prop nft (some tid)) = none := rfl
  have hg := getPropertyDetails_of_miss chain hm
  rcases fetchProperty_success_spec chain nft (some tid) emptySt V hV with
    ⟨rid, pd, hreg, hact, hVid, hVtid, hVtok, ht, hst⟩
  have hrid : rid = tid := by
    rcases ht with h | h
    · exact (Option.some.inj h).symm
    · cases h
  subst hrid
  subst hVtid
  subst hid
  have hr2 : rget (getPropertyDetails chain V.id (some V.tokenId) emptySt).2.redis
      (RKey.prop V.id (some V.tokenId)) = some (RVal.prop V) := by
    rw [hg, hst]
    rw [rget_rset_of_ne _ (by simp), rget_rset_self]
  have hhit : ∀ st' : St,
      rget st'.redis (RKey.prop V.id (some V.tokenId)) = some (RVal.prop V) →
      getPropertyDetails chain V.id (some V.tokenId) st' = (some V, st') := by
    intro st' hh
    unfold getPropertyDetails
    rw [hh]
  have hsnd := hhit _ hr2
  refine ⟨by rw [hg]; exact hV, hr2, ?_, by rw [hg, hst]; rfl, ?_, ?_⟩
  · rw [hg, hst]
    exact lookupProp_upsertProp_self _ _
  · rw [hsnd]
  · rw [hsnd]
    rw [hg, hst]
    rfl

/-- Claim C2 witness: the read-through scenario on `chain1` at
`("0xA", 0)` with value `V1`. -/
theorem readThroughPopulatesBothTiers_witness :
    (getPropertyDetails chain1 "0xA" (some 0) emptySt).1 = some V1 ∧
    rget (getPropertyDetails chain1 "0xA" (some 0) emptySt).2.redis
      (RKey.prop "0xA" (some 0)) = some (RVal.prop V1) ∧
    lookupProp (getPropertyDetails chain1 "0xA" (some 0) emptySt).2.dbProps
      "0xA" 0 =
      some ⟨"0xA", 0, V1.tokenAddress, V1.metadata, V1.totalSupply, true⟩ ∧
    (getPropertyDetails chain1 "0xA" (some 0) emptySt).2.coldFetches = 1 ∧
    (getPropertyDetails chain1 "0xA" (some 0)
      (getPropertyDetails chain1 "0xA" (some 0) emptySt).2).1 = some V1 ∧
    (getPropertyDetails chain1 "0xA" (some 0)
      (getPropertyDetails chain1 "0xA" (some 0) emptySt).2).2.coldFetches = 1 :=
  readThroughPopulatesBothTiers chain1 "0xA" 0 V1 (by decide) rfl

/-- Claim C3 counterexample: with `("0xA", 0)` cached in both tiers
(`st1c`) and only the ephemeral tier flushed (`stFlushed`), the durable
tier still holds the row, yet the next get invokes the cold fetch again
(the counter goes from 1 to 2) — the claim's "returns that value from
the durable tier without invoking the cold fetch" is false on this
input: the single-property read path never consults the durable tier. -/
theorem flushedGetInvokesColdFetch :
    lookupProp stFlushed.dbProps "0xA" 0 = some rowA ∧
    rget stFlushed.redis (RKey.prop "0xA" (some 0)) = none ∧
    stFlushed.coldFetches = 1 ∧
    (getPropertyDetails chain1 "0xA" (some 0) stFlushed).1 = some V1 ∧
    (getPropertyDetails chain1 "0xA" (some 0) stFlushed).2.coldFetches = 2 := by
  refine ⟨by decide, rfl, by decide, by decide, by decide⟩

/-- Claim C3 (amended): after an ephemeral-only flush, the next
single-property get goes back to the cold fetch (incrementing the
counter) — not to the durable tier — and, when the fetch succeeds,
returns the value and repopulates the ephemeral tier and the durable
row as a side effect. -/
theorem flushedGetRefetchesAndRepopulates (chain : Chain) (st : St)
    (nft : String) (t : Option Nat) (V : PropertyDto)
    (hmiss : rget st.redis (RKey.prop nft t) = none)
    (hV : (fetchPropertyDetailsFromBlockchain chain nft t st).1 = some V) :
    (getPropertyDetails chain nft t st).1 = some V ∧
    (getPropertyDetails chain nft t st).2.coldFetches = st.coldFetches + 1 ∧
    rget (getPropertyDetails chain nft t st).2.redis
      (RKey.prop V.id (some V.tokenId)) = some (RVal.prop V) ∧
    lookupProp (getPropertyDetails chain nft t st).2.dbProps V.id V.tokenId =
      some ⟨V.id, V.tokenId, V.tokenAddress, V.metadata, V.totalSupply, true⟩ := by
  have hg := getPropertyDetails_of_miss chain hmiss
  rcases fetchProperty_success_spec chain nft t st V hV with
    ⟨rid, pd, hreg, hact, _, _, _, _, hst⟩
  refine ⟨by rw [hg]; exact hV, by rw [hg, hst], ?_, ?_⟩
  · rw [hg, hst]
    rw [rget_rset_of_ne _ (by simp), rget_rset_self]
  · rw [hg, hst]
    exact lookupProp_upsertProp_self _ _

/-- Claim C3 witness: the amended behavior at the concrete flushed
state. -/
theorem flushedGetRefetchesAndRepopulates_witness :
    (getPropertyDetails chain1 "0xA" (some 0) stFlushed).1 = some V1 ∧
    (getPropertyDetails chain1 "0xA" (some 0) stFlushed).2.coldFetches =
      stFlushed.coldFetches + 1 ∧
    rget (getPropertyDetails chain1 "0xA" (some 0) stFlushed).2.redis
      (RKey.prop V1.id (some V1.tokenId)) = some (RVal.prop V1) ∧
    lookupProp (getPropertyDetails chain1 "0xA" (some 0) stFlushed).2.dbProps
      V1.id V1.tokenId =
      some ⟨V1.id, V1.tokenId, V1.tokenAddress, V1.metadata, V1.totalSupply, true⟩ :=
  flushedGetRefetchesAndRepopulates chain1 stFlushed "0xA" (some 0) V1 rfl
    (by decide)

/-- Claim C4: when the single-property cold fetch returns absent, no
entry is cached for the key in either tier (absence is preserved for
every key — negative results are never cached), and a subsequent read
for the same key invokes the cold fetch again (the counter advances
twice in total). -/
theorem negativeResultNotCached (chain : Chain) (nft : String) (t : Option Nat)
    (st : St)
    (hmiss : rget st.redis (RKey.prop nft t) = none)
    (h : (fetchPropertyDetailsFromBlockchain chain nft t st).1 = none) :
    rget (fetchPropertyDetailsFromBlockchain chain nft t st).2.redis
      (RKey.prop nft t) = none ∧
    (∀ k, rget st.redis k = none →
      rget (fetchPropertyDetailsFromBlockchain chain nft t st).2.redis k = none) ∧
    (∀ (i : String) (tid : Nat), lookupProp st.dbProps i tid = none →
      lookupProp (fetchPropertyDetailsFromBlockchain chain nft t st).2.dbProps
        i tid = none) ∧
    (getPropertyDetails chain nft t
      (fetchPropertyDetailsFromBlockchain chain nft t st).2).2.coldFetches =
      st.coldFetches + 2 := by
  have habs : ∀ k, rget st.redis k = none →
      rget (fetchPropertyDetailsFromBlockchain chain nft t st).2.redis k = none := by
    intro k hk
    rcases fetchProperty_cases chain nft t st with
      hc | ⟨rid, pd, _, _, hc⟩ | ⟨rid, pd, _, _, _, hc⟩
    · rw [hc]; exact hk
    · rw [hc]
      exact rget_rdel_absent (rget_rdel_absent (rget_rdel_absent hk _) _) _
    · rcases formatProperty_cases chain pd rid (bumpCold st) with
        h2 | ⟨dto, _, _, _, h2⟩
      · rw [hc, h2]; exact hk
      · rw [hc, h2] at h; cases h
  have hdb : ∀ (i : String) (tid : Nat), lookupProp st.dbProps i tid = none →
      lookupProp (fetchPropertyDetailsFromBlockchain chain nft t st).2.dbProps
        i tid = none := by
    intro i tid hk
    rcases fetchProperty_cases chain nft t st with
      hc | ⟨rid, pd, _, _, hc⟩ | ⟨rid, pd, _, _, _, hc⟩
    · rw [hc]; exact hk
    · rw [hc]
      exact lookupProp_filter_absent hk _
    · rcases formatProperty_cases chain pd rid (bumpCold st) with
        h2 | ⟨dto, _, _, _, h2⟩
      · rw [hc, h2]; exact hk
      · rw [hc, h2] at h; cases h
  have hmiss2 : rget (fetchPropertyDetailsFromBlockchain chain nft t st).2.redis
      (RKey.prop nft t) = none := habs _ hmiss
  have hg := getPropertyDetails_of_miss chain hmiss2
  refine ⟨hmiss2, habs, hdb, ?_⟩
  rw [hg, fetchProperty_coldFetches, fetchProperty_coldFetches]

/-- Claim C4 witness: the failing fetch for the unregistered address
`0xB` on `chain1` caches nothing and a later read cold-fetches again. -/
theorem negativeResultNotCached_witness :
    rget (fetchPropertyDetailsFromBlockchain chain1 "0xB" none emptySt).2.redis
      (RKey.prop "0xB" none) = none ∧
    rget (fetchPropertyDetailsFromBlockchain chain1 "0xB" none emptySt).2.redis
      (RKey.prop "0xZ" (some 5)) = none ∧
    lookupProp
      (fetchPropertyDetailsFromBlockchain chain1 "0xB" none emptySt).2.dbProps
      "0xZ" 5 = none ∧
    (getPropertyDetails chain1 "0xB" none
      (fetchPropertyDetailsFromBlockchain chain1 "0xB" none emptySt).2).2.coldFetches =
      2 := by
  obtain ⟨h1, h2, h3, h4⟩ :=
    negativeResultNotCached chain1 "0xB" none emptySt rfl (by decide)
  exact ⟨h1, h2 _ rfl, h3 "0xZ" 5 rfl, h4⟩

/-- Claim C1 counterexample: on `chainL`, listing 0 has a non-zero
seller but `isActive = false`; `getListingDetails` (cold-fetch tier)
still returns it, with `active = false` in the served payload — an
entity whose active flag is false is contained in a read result. -/
theorem listingReadServesInactive :
    (getListingDetails chainL 0 emptySt).1 =
      some ⟨0, "0xSELLER", "", "", "0xTOKL", "10", "5", false, "USDC"⟩ := by
  decide

/-- Claim C1 (amended): the property read paths do filter inactive
entities — the single-property cold fetch only ever returns a DTO whose
registry entry is active, the durable single-listing lookup only
returns rows with `active = true`, and the user-scoped durable join
only emits entries backed by an active property row; but the listing
single-entity read's ephemeral hit and cold fetch do not check the
`active` flag (see the counterexample). -/
theorem readPathsFilterInactive :
    (∀ (chain : Chain) (nft : String) (t : Option Nat) (st : St)
      (V : PropertyDto),
      (fetchPropertyDetailsFromBlockchain chain nft t st).1 = some V →
        ∃ rid pd, chain.registry.get? rid = some pd ∧ pd.isActive = true ∧
          V.id = pd.propertyNFT ∧ V.tokenId = rid) ∧
    (∀ (db : List CachedListing) (lid now : Nat) (cl : CachedListing),
      dbFindListing db lid now = some cl → cl.active = true) ∧
    (∀ (st : St) (a : String) (o : OwnedProperty), o ∈ userPropsFromDb st a →
      ∃ (cp : CachedProperty) (bal : String), cp.isActive = true ∧
        o = ⟨cp.id, cp.tokenId, cp.tokenAddress, cp.metadata, cp.totalSupply,
          bal⟩) := by
  refine ⟨?_, ?_, ?_⟩
  · intro chain nft t st V h
    rcases fetchProperty_success_spec chain nft t st V h with
      ⟨rid, pd, hreg, hact, hid, htid, _, _, _⟩
    exact ⟨rid, pd, hreg, hact, hid, htid⟩
  · intro db lid now
    induction db with
    | nil => intro cl h; cases h
    | cons c rest ih =>
      intro cl h
      rw [show dbFindListing (c :: rest) lid now =
        (if c.listingId = lid ∧ c.active = true ∧ now < c.expiresAt then some c
          else dbFindListing rest lid now) from rfl] at h
      by_cases hc : c.listingId = lid ∧ c.active = true ∧ now < c.expiresAt
      · rw [if_pos hc] at h
        injection h with h
        rw [← h]
        exact hc.2.1
      · rw [if_neg hc] at h
        exact ih cl h
  · intro st a o ho
    unfold userPropsFromDb at ho
    rcases List.mem_filterMap.mp ho with ⟨b, _, hfb⟩
    cases hl : lookupProp st.dbProps b.propertyNftAddress b.tokenId with
    | none => rw [hl] at hfb; cases hfb
    | some cp =>
      rw [hl] at hfb
      have hfb2 : (if cp.isActive = true then
          some (⟨cp.id, cp.tokenId, cp.tokenAddress, cp.metadata,
            cp.totalSupply, b.balance⟩ : OwnedProperty) else none) = some o := hfb
      by_cases hcp : cp.isActive = true
      · rw [if_pos hcp] at hfb2
        injection hfb2 with hfb2
        exact ⟨cp, b.balance, hcp, hfb2.symm⟩
      · rw [if_neg hcp] at hfb2
        cases hfb2

/-- Claim C1 (amended) witness: concrete instances of the three
filtering facts. -/
theorem readPathsFilterInactive_witness :
    (∃ rid pd, chain1.registry.get? rid = some pd ∧ pd.isActive = true ∧
      V1.id = pd.propertyNFT ∧ V1.tokenId = rid) ∧
    clA.active = true ∧
    (∃ (cp : CachedProperty) (bal : String), cp.isActive = true ∧
      oU = ⟨cp.id, cp.tokenId, cp.tokenAddress, cp.metadata, cp.totalSupply,
        bal⟩) := by
  obtain ⟨h1, h2, h3⟩ := readPathsFilterInactive
  refine ⟨h1 chain1 "0xA" (some 0) emptySt V1 (by decide), ?_, ?_⟩
  · exact h2 [clA] 7 0 clA (by decide)
  · refine h3 stUB "0xU" oU ?_
    have he : userPropsFromDb stUB "0xU" = [oU] := by decide
    rw [he]
    exact List.mem_cons_self _ _

/-- Claim C5 counterexample: `resetAndRebuildCache` deletes only the
two aggregate list keys from the ephemeral tier — a stale per-entity
key survives the rebuild — so "clears both cache tiers entirely" is
false, even though the durable tier is fully cleared. -/
theorem rebuildLeavesEphemeralEntries :
    rget (resetAndRebuildCache chainL stStale).redis
      (RKey.prop "0xA" (some 0)) = some (RVal.prop V1) ∧
    (resetAndRebuildCache chainL stStale).dbProps = [] ∧
    (resetAndRebuildCache chainL stStale).dbBalances = [] := by
  decide

theorem allActive_populate (chain : Chain) (st : St)
    (h : allActive st.dbProps) :
    allActive (populateInitialPropertyCache chain st).dbProps := by
  unfold populateInitialPropertyCache
  have ha := allActive_fetchAll chain st h
  split
  · rename_i props st1 heq
    rw [heq] at ha
    split
    · exact ha
    · exact ha

/-- Claim C5 (amended): `rebuild()` clears the durable tier entirely —
balances (the dependent rows) are cleared before the property rows they
reference (ghost log order), and afterwards every durable property row
comes from the repopulation (all active); the ephemeral tier is only
partially cleared (just the two list keys): user-scoped keys survive
untouched. Repopulation then re-runs the enumeration cold fetch. -/
theorem rebuildClearsDurableThenRepopulates (chain : Chain) (st : St) :
    (resetAndRebuildCache chain st).dbBalances = [] ∧
    (∀ r, r ∈ (resetAndRebuildCache chain st).dbProps → r.isActive = true) ∧
    (resetAndRebuildCache chain st).log =
      st.log ++ [LogEv.clearBalances, LogEv.clearProps] ∧
    (∀ u, rget (resetAndRebuildCache chain st).redis (RKey.userProps u) =
      rget st.redis (RKey.userProps u)) := by
  set X : St := St.mk (rdel (rdel st.redis RKey.propsAll) RKey.listingsAll) [] []
    st.dbListings st.coldFetches
    (st.log ++ [LogEv.clearBalances] ++ [LogEv.clearProps]) with hX
  have hEq : resetAndRebuildCache chain st =
      populateInitialPropertyCache chain X := rfl
  have hf := populate_frame chain X
  have ha : allActive (populateInitialPropertyCache chain X).dbProps := by
    apply allActive_populate
    intro r hr
    rw [hX] at hr
    cases hr
  refine ⟨?_, ?_, ?_, ?_⟩
  · rw [hEq, hf.2.1, hX]
  · rw [hEq]
    exact ha
  · rw [hEq, hf.1, hX]
    simp
  · intro u
    rw [hEq, hf.2.2 u, hX]
    rw [rget_rdel_of_ne (by simp), rget_rdel_of_ne (by simp)]

/-- Claim C5 (amended) witness: the rebuild on `chain1` from the empty
state clears balances, repopulates only active rows, logs the clears in
dependency order, and leaves (absent) user keys untouched. -/
theorem rebuildClearsDurableThenRepopulates_witness :
    (resetAndRebuildCache chain1 emptySt).dbBalances = [] ∧
    rowA.isActive = true ∧
    (resetAndRebuildCache chain1 emptySt).log =
      [LogEv.clearBalances, LogEv.clearProps] ∧
    rget (resetAndRebuildCache chain1 emptySt).redis (RKey.userProps "0xU") =
      none := by
  obtain ⟨h1, h2, h3, h4⟩ := rebuildClearsDurableThenRepopulates chain1 emptySt
  refine ⟨h1, ?_, by simpa using h3, (h4 "0xU").trans rfl⟩
  refine h2 rowA ?_
  have he : (resetAndRebuildCache chain1 emptySt).dbProps = [rowA] := by decide
  rw [he]
  exact List.mem_cons_self _ _

/-- Claim C10: the durable row writer of the population path
(`saveToCachedProperties`) only ever adds rows with `isActive = true`,
and both the single-property cold fetch and the enumeration cold fetch
preserve the all-rows-active invariant of the durable property table
(inactive entities are handled by deletion, never by writing an
inactive row). -/
theorem populationWritesOnlyActiveRows :
    (∀ (dto : PropertyDto) (st : St) (r : CachedProperty),
      r ∈ (saveToCachedProperties dto st).dbProps →
        r ∈ st.dbProps ∨ r.isActive = true) ∧
    (∀ (chain : Chain) (nft : String) (t : Option Nat) (st : St),
      allActive st.dbProps →
      allActive (fetchPropertyDetailsFromBlockchain chain nft t st).2.dbProps) ∧
    (∀ (chain : Chain) (st : St), allActive st.dbProps →
      allActive (fetchAllPropertiesFromBlockchain chain st).2.dbProps) := by
  refine ⟨?_, fun chain nft t st h => allActive_fetchProperty chain nft t st h,
    fun chain st h => allActive_fetchAll chain st h⟩
  intro dto st r hr
  rcases mem_upsertProp hr with h | h
  · right
    rw [h]
  · left
    exact h

/-- Claim C10 witness: concrete instances — the row written for `V1` is
active, and both cold fetches on `chain1` from the empty table keep the
invariant. -/
theorem populationWritesOnlyActiveRows_witness :
    (rowA ∈ emptySt.dbProps ∨ rowA.isActive = true) ∧
    allActive
      (fetchPropertyDetailsFromBlockchain chain1 "0xA" (some 0) emptySt).2.dbProps ∧
    allActive (fetchAllPropertiesFromBlockchain chain1 emptySt).2.dbProps := by
  obtain ⟨h1, h2, h3⟩ := populationWritesOnlyActiveRows
  have he : allActive emptySt.dbProps := by
    intro r hr
    cases hr
  refine ⟨h1 V1 emptySt rowA ?_, h2 chain1 "0xA" (some 0) emptySt he,
    h3 chain1 emptySt he⟩
  have hx : (saveToCachedProperties V1 emptySt).dbProps = [rowA] := by decide
  rw [hx]
  exact List.mem_cons_self _ _
